import Mathlib

/-!
Verification of the biometrics SHA-256 hashing evaluation program
(`src/biometrics.py`), as a shallow embedding in Lean 4.

Byte sequences are `List Nat` (each element a byte value), file names are
`List Char`, printed diagnostics are a `List LogMsg`, and the random draws
performed by the tamperer (`random.randint`) are passed as explicit
parameters. Metrics are rationals. Reads are embedded by their result: the
reader returns the file's bytes, or the empty sequence on a failed read,
which is the only observation the rest of the program makes of it.
-/

namespace Biometrics

/-! ### Hasher: `generate_sha256_hash` (SHA-256, FIPS 180-4) -/

/-- 2^32, the modulus for 32-bit words. -/
def M32 : Nat := 4294967296

/-- Right rotation of a 32-bit word. -/
def rotr32 (n x : Nat) : Nat := ((x >>> n) ||| (x <<< (32 - n))) % M32

/-- Logical right shift. -/
def shr32 (n x : Nat) : Nat := x >>> n

/-- The SHA-256 Ch function; 32-bit complement taken by xor with the
all-ones mask. -/
def ch32 (x y z : Nat) : Nat := (x &&& y) ^^^ ((x ^^^ 4294967295) &&& z)

/-- The SHA-256 Maj function. -/
def maj32 (x y z : Nat) : Nat := (x &&& y) ^^^ (x &&& z) ^^^ (y &&& z)

/-- Σ₀ -/
def bigSigma0 (x : Nat) : Nat := rotr32 2 x ^^^ rotr32 13 x ^^^ rotr32 22 x

/-- Σ₁ -/
def bigSigma1 (x : Nat) : Nat := rotr32 6 x ^^^ rotr32 11 x ^^^ rotr32 25 x

/-- σ₀ -/
def smallSigma0 (x : Nat) : Nat := rotr32 7 x ^^^ rotr32 18 x ^^^ shr32 3 x

/-- σ₁ -/
def smallSigma1 (x : Nat) : Nat := rotr32 17 x ^^^ rotr32 19 x ^^^ shr32 10 x

/-- The 64 SHA-256 round constants (FIPS 180-4 §4.2.2, in decimal). -/
def K256 : List Nat :=
  [1116352408, 1899447441, 3049323471, 3921009573, 961987163, 1508970993,
   2453635748, 2870763221, 3624381080, 310598401, 607225278, 1426881987,
   1925078388, 2162078206, 2614888103, 3248222580, 3835390401, 4022224774,
   264347078, 604807628, 770255983, 1249150122, 1555081692, 1996064986,
   2554220882, 2821834349, 2952996808, 3210313671, 3336571891, 3584528711,
   113926993, 338241895, 666307205, 773529912, 1294757372, 1396182291,
   1695183700, 1986661051, 2177026350, 2456956037, 2730485921, 2820302411,
   3259730800, 3345764771, 3516065817, 3600352804, 4094571909, 275423344,
   430227734, 506948616, 659060556, 883997877, 958139571, 1322822218,
   1537002063, 1747873779, 1955562222, 2024104815, 2227730452, 2361852424,
   2428436474, 2756734187, 3204031479, 3329325298]

/-- The eight-word SHA-256 state. -/
structure SHA8 where
  a : Nat
  b : Nat
  c : Nat
  d : Nat
  e : Nat
  f : Nat
  g : Nat
  h : Nat
  deriving DecidableEq

/-- The SHA-256 initial hash value (FIPS 180-4 §5.3.3, in decimal). -/
def initH : SHA8 where
  a := 1779033703
  b := 3144134277
  c := 1013904242
  d := 2773480762
  e := 1359893119
  f := 2600822924
  g := 528734635
  h := 1541459225

/-- SHA-256 padding: append 0x80, zero bytes up to 56 mod 64, then the
bit length as 8 big-endian bytes. -/
def padMessage (msg : List Nat) : List Nat :=
  let len := msg.length
  let bitLen := 8 * len
  let zeros := (119 - len % 64) % 64
  msg ++ 128 :: List.replicate zeros 0 ++
    [(bitLen >>> 56) % 256, (bitLen >>> 48) % 256, (bitLen >>> 40) % 256, (bitLen >>> 32) % 256,
     (bitLen >>> 24) % 256, (bitLen >>> 16) % 256, (bitLen >>> 8) % 256, bitLen % 256]

/-- Group bytes into big-endian 32-bit words (trailing partial group dropped;
the padded message never has one). -/
def bytesToWords : List Nat → List Nat
  | b0 :: b1 :: b2 :: b3 :: rest =>
      ((b0 <<< 24) ||| (b1 <<< 16) ||| (b2 <<< 8) ||| b3) :: bytesToWords rest
  | _ => []

/-- Extend the 16-word message schedule to 64 words. -/
def extendW (w0 : List Nat) : List Nat :=
  (List.range 48).foldl
    (fun w _ =>
      let n := w.length
      w ++ [(smallSigma1 (w.getD (n - 2) 0) + w.getD (n - 7) 0 +
             smallSigma0 (w.getD (n - 15) 0) + w.getD (n - 16) 0) % M32])
    w0

/-- One SHA-256 compression round for a (constant, schedule word) pair. -/
def compressRound (s : SHA8) (kw : Nat × Nat) : SHA8 :=
  let t1 := (s.h + bigSigma1 s.e + ch32 s.e s.f s.g + kw.1 + kw.2) % M32
  let t2 := (bigSigma0 s.a + maj32 s.a s.b s.c) % M32
  ⟨(t1 + t2) % M32, s.a, s.b, s.c, (s.d + t1) % M32, s.e, s.f, s.g⟩

/-- Process one 64-byte chunk: 64 compression rounds, then add into the
running hash modulo 2^32. -/
def processChunk (H : SHA8) (chunk : List Nat) : SHA8 :=
  let w := extendW (bytesToWords chunk)
  let s := (K256.zip w).foldl compressRound H
  ⟨(H.a + s.a) % M32, (H.b + s.b) % M32, (H.c + s.c) % M32, (H.d + s.d) % M32,
   (H.e + s.e) % M32, (H.f + s.f) % M32, (H.g + s.g) % M32, (H.h + s.h) % M32⟩

/-- Process the message 64 bytes at a time. The first argument is
recursion fuel: one unit per remaining byte is always sufficient, since a
step consumes 64 bytes; structural recursion on the fuel keeps the
function computable by the kernel. -/
def processChunks : Nat → SHA8 → List Nat → SHA8
  | 0, H, _ => H
  | fuel + 1, H, l =>
      if l = [] then H
      else processChunks fuel (processChunk H (l.take 64)) (l.drop 64)

/-- The final SHA-256 state for a byte sequence. -/
def sha256State (data : List Nat) : SHA8 :=
  processChunks (padMessage data).length initH (padMessage data)

/-- Lowercase hex digit of `n % 16`. -/
def hexDigit (n : Nat) : Char :=
  if n % 16 < 10 then Char.ofNat (48 + n % 16) else Char.ofNat (87 + n % 16)

/-- Eight lowercase hex digits of a 32-bit word, most significant first. -/
def wordToHex (w : Nat) : List Char :=
  [hexDigit (w >>> 28), hexDigit (w >>> 24), hexDigit (w >>> 20), hexDigit (w >>> 16),
   hexDigit (w >>> 12), hexDigit (w >>> 8), hexDigit (w >>> 4), hexDigit w]

/-- The 64 hex characters of a SHA-256 state. -/
def stateToHex (s : SHA8) : List Char :=
  wordToHex s.a ++ wordToHex s.b ++ wordToHex s.c ++ wordToHex s.d ++
  wordToHex s.e ++ wordToHex s.f ++ wordToHex s.g ++ wordToHex s.h

/-- `generate_sha256_hash`: the lowercase hex SHA-256 digest of a byte
sequence, as `hashlib.sha256(data).hexdigest()` returns it. -/
def generate_sha256_hash (data : List Nat) : String :=
  String.mk (stateToHex (sha256State data))

/-! ### Tamperer: `tamper_image`

`random.randint(0, len - 1)` and `random.randint(0, 255)` are passed in as
the explicit parameters `idx` and `val`; the Python guarantees
`idx < len` and `val ≤ 255` at every call. -/

/-- `tamper_image`: empty input is returned unchanged before any random
draw; otherwise the byte at the drawn index is overwritten with the drawn
value. -/
def tamper_image (binary_data : List Nat) (idx val : Nat) : List Nat :=
  if binary_data = [] then []
  else binary_data.set idx val

/-! ### Evaluator: `evaluate_binary_vs_sha256`

The file read `image_to_binary(image_path)` is embedded by its result
`binary_image` (the file's bytes; the empty list when the read raised
`FileNotFoundError`/`IOError` and the handler returned `b""`). -/

/-- `evaluate_binary_vs_sha256`: produce the (true_label, predicted_label)
pair for one trial. `idx`/`val` are the tamperer's random draws (used only
when `tampered = true`). -/
def evaluate_binary_vs_sha256 (binary_image : List Nat) (tampered : Bool)
    (idx val : Nat) : Nat × Nat :=
  if binary_image = [] then (0, 0)
  else
    let original_sha256_hash := generate_sha256_hash binary_image
    let binary_image2 := if tampered then tamper_image binary_image idx val else binary_image
    if tampered = true ∧ binary_image2 = [] then (0, 0)
    else
      let predicted_label := if generate_sha256_hash binary_image2 = original_sha256_hash then 1 else 0
      let true_label := if tampered = false then 1 else 0
      (true_label, predicted_label)

/-! ### Batch runner: `process_images_in_directory` -/

/-- The diagnostic and progress messages the program prints. -/
inductive LogMsg where
  | dirNotExist : LogMsg
  | processingOriginal : List Char → LogMsg
  | processingTampered : List Char → LogMsg
  | noValidImages : LogMsg
  deriving DecidableEq

/-- One directory entry as the batch runner observes it: its filename, the
bytes its read produces (empty on a failed read), and the two random draws
the tampered trial will consume. -/
structure ImageEntry where
  name : List Char
  bytes : List Nat
  tIdx : Nat
  tVal : Nat

/-- `filename.lower().endswith(('.png', '.jpg', '.jpeg', '.bmp'))`. -/
def hasImageExt (name : List Char) : Bool :=
  [String.toList ".png", String.toList ".jpg", String.toList ".jpeg", String.toList ".bmp"].any
    (fun ext => List.isSuffixOf ext (name.map Char.toLower))

/-- One iteration of the batch runner's loop: accumulated
(true labels, predicted labels, log), extended by the entry's two trials
when the filename matches an image extension. -/
def evalStep (acc : List Nat × List Nat × List LogMsg) (en : ImageEntry) :
    List Nat × List Nat × List LogMsg :=
  if hasImageExt en.name then
    let r1 := evaluate_binary_vs_sha256 en.bytes false en.tIdx en.tVal
    let r2 := evaluate_binary_vs_sha256 en.bytes true en.tIdx en.tVal
    (acc.1 ++ [r1.1, r2.1], acc.2.1 ++ [r1.2, r2.2],
     acc.2.2 ++ [LogMsg.processingOriginal en.name, LogMsg.processingTampered en.name])
  else acc

/-- The batch runner's loop over `os.listdir(directory)`. -/
def collectLabels (entries : List ImageEntry) : List Nat × List Nat × List LogMsg :=
  entries.foldl evalStep ([], [], [])

/-- Count of index-aligned (true, predicted) pairs equal to `(a, b)`. -/
def countPairs (ts ps : List Nat) (a b : Nat) : Nat :=
  ((ts.zip ps).filter (fun x => x.1 == a && x.2 == b)).length

/-- `sklearn.metrics.precision_score` on binary 0/1 labels with positive
class 1: TP/(TP+FP), 0 when the denominator is 0. -/
def precision_score (ts ps : List Nat) : ℚ :=
  let tp := countPairs ts ps 1 1
  let fp := countPairs ts ps 0 1
  if tp + fp = 0 then 0 else (tp : ℚ) / ((tp : ℚ) + (fp : ℚ))

/-- `sklearn.metrics.recall_score`: TP/(TP+FN), 0 when the denominator is 0. -/
def recall_score (ts ps : List Nat) : ℚ :=
  let tp := countPairs ts ps 1 1
  let fn := countPairs ts ps 1 0
  if tp + fn = 0 then 0 else (tp : ℚ) / ((tp : ℚ) + (fn : ℚ))

/-- `sklearn.metrics.f1_score`: 2PR/(P+R), 0 when the denominator is 0. -/
def f1_score (ts ps : List Nat) : ℚ :=
  let p := precision_score ts ps
  let r := recall_score ts ps
  if p + r = 0 then 0 else 2 * p * r / (p + r)

/-- The batch runner's observable outcome: the returned metrics triple,
the two accumulator lists as the loop left them, and the printed messages. -/
structure BatchResult where
  metrics : ℚ × ℚ × ℚ
  trueLabels : List Nat
  predLabels : List Nat
  log : List LogMsg
  deriving DecidableEq

/-- `process_images_in_directory`: `dirExists` is `os.path.isdir(directory)`
and `entries` is `os.listdir(directory)` paired with each file's read result
and the tampered trial's random draws. -/
def process_images_in_directory (dirExists : Bool) (entries : List ImageEntry) : BatchResult :=
  if dirExists = false then ⟨(0, 0, 0), [], [], [LogMsg.dirNotExist]⟩
  else
    let r := collectLabels entries
    if r.1 = [] ∨ r.2.1 = [] then
      ⟨(0, 0, 0), r.1, r.2.1, r.2.2 ++ [LogMsg.noValidImages]⟩
    else
      ⟨(precision_score r.1 r.2.1, recall_score r.1 r.2.1, f1_score r.1 r.2.1),
       r.1, r.2.1, r.2.2⟩

/-- The sixteen lowercase hexadecimal characters. -/
def hexChars : List Char :=
  String.toList "0123456789abcdef"

/-- The labels and messages contributed by a single directory entry:
`evalStep` started from the empty accumulator. -/
def entryLabels (en : ImageEntry) : List Nat × List Nat × List LogMsg :=
  evalStep ([], [], []) en

/-- The (ground-truth, predicted) pairs one entry contributes, index-aligned. -/
def entryPairs (en : ImageEntry) : List (Nat × Nat) :=
  if hasImageExt en.name then
    [evaluate_binary_vs_sha256 en.bytes false en.tIdx en.tVal,
     evaluate_binary_vs_sha256 en.bytes true en.tIdx en.tVal]
  else []

/-- All eight words of a SHA-256 state are 32-bit. -/
def Bounded32 (s : SHA8) : Prop :=
  s.a < M32 ∧ s.b < M32 ∧ s.c < M32 ∧ s.d < M32 ∧
  s.e < M32 ∧ s.f < M32 ∧ s.g < M32 ∧ s.h < M32

/-- A SHA-256 state read as a single base-2^32 number (the 256-bit digest
value). -/
def stateNat (s : SHA8) : Nat :=
  ((((((s.a * M32 + s.b) * M32 + s.c) * M32 + s.d) * M32 + s.e) * M32 + s.f) * M32 + s.g)
    * M32 + s.h

/-! ### Helper lemmas -/

theorem hexDigit_mem (n : Nat) : hexDigit n ∈ hexChars := by
  have h : n % 16 < 16 := Nat.mod_lt _ (by norm_num)
  unfold hexDigit
  generalize n % 16 = m at h ⊢
  interval_cases m <;> decide

theorem wordToHex_mem (w : Nat) : ∀ c ∈ wordToHex w, c ∈ hexChars := by
  intro c hc
  simp only [wordToHex, List.mem_cons, List.not_mem_nil, or_false] at hc
  rcases hc with rfl | rfl | rfl | rfl | rfl | rfl | rfl | rfl <;> exact hexDigit_mem _

theorem stateToHex_mem (s : SHA8) : ∀ c ∈ stateToHex s, c ∈ hexChars := by
  intro c hc
  simp only [stateToHex, List.mem_append] at hc
  rcases hc with ((((((h | h) | h) | h) | h) | h) | h) | h <;> exact wordToHex_mem _ _ h

theorem stateToHex_length (s : SHA8) : (stateToHex s).length = 64 := by
  simp [stateToHex, wordToHex]

theorem getD_set_self : ∀ (l : List Nat) (i v : Nat), i < l.length →
    (l.set i v).getD i 0 = v
  | [], i, v, h => by simp at h
  | _ :: _, 0, _, _ => rfl
  | a :: l, i + 1, v, h => by
      simp only [List.set, List.getD_cons_succ]
      exact getD_set_self l i v (by simpa using h)

theorem getD_set_ne : ∀ (l : List Nat) (i j v : Nat), j ≠ i →
    (l.set i v).getD j 0 = l.getD j 0
  | [], _, _, _, _ => rfl
  | a :: l, 0, 0, v, h => absurd rfl h
  | a :: l, 0, j + 1, v, _ => rfl
  | a :: l, i + 1, 0, v, _ => rfl
  | a :: l, i + 1, j + 1, v, h => by
      simp only [List.set, List.getD_cons_succ]
      exact getD_set_ne l i j v (fun hji => h (congrArg Nat.succ hji))

theorem tamper_image_ne_nil (b : List Nat) (idx val : Nat) (hb : b ≠ []) :
    tamper_image b idx val ≠ [] := by
  unfold tamper_image
  rw [if_neg hb]
  intro hset
  exact hb (List.eq_nil_of_length_eq_zero (by
    have := congrArg List.length hset
    simpa using this))

/-- FIPS 180-4 test vector: SHA-256 of the empty message. -/
theorem sha256_vector_empty :
    generate_sha256_hash [] =
      "e3b0c44298fc1c149afbf4c8996fb92427ae41e4649b934ca495991b7852b855" := by decide

/-- FIPS 180-4 test vector: SHA-256 of "abc". -/
theorem sha256_vector_abc :
    generate_sha256_hash [97, 98, 99] =
      "ba7816bf8f01cfea414140de5dae2223b00361a396177a9cb410ff61f20015ad" := by decide

theorem processChunk_bounded (H : SHA8) (chunk : List Nat) :
    Bounded32 (processChunk H chunk) := by
  unfold processChunk Bounded32
  refine ⟨?_, ?_, ?_, ?_, ?_, ?_, ?_, ?_⟩ <;> exact Nat.mod_lt _ (by norm_num [M32])

theorem processChunks_bounded :
    ∀ (fuel : Nat) (H : SHA8) (l : List Nat), Bounded32 H →
      Bounded32 (processChunks fuel H l)
  | 0, _, _, hH => hH
  | fuel + 1, H, l, hH => by
      unfold processChunks
      by_cases hl : l = []
      · simpa [hl] using hH
      · rw [if_neg hl]
        exact processChunks_bounded fuel _ _ (processChunk_bounded H (l.take 64))

theorem initH_bounded : Bounded32 initH := by
  unfold Bounded32 initH M32
  norm_num

theorem sha256State_bounded (data : List Nat) : Bounded32 (sha256State data) :=
  processChunks_bounded _ _ _ initH_bounded

theorem stateNat_lt (s : SHA8) (hs : Bounded32 s) :
    stateNat s < M32 ^ 8 := by
  obtain ⟨h1, h2, h3, h4, h5, h6, h7, h8⟩ := hs
  unfold stateNat
  simp only [M32] at h1 h2 h3 h4 h5 h6 h7 h8 ⊢
  have hpow : (4294967296 : Nat) ^ 8 =
      115792089237316195423570985008687907853269984665640564039457584007913129639936 := by
    norm_num
  rw [hpow]
  omega

theorem stateNat_inj (s t : SHA8) (hs : Bounded32 s) (ht : Bounded32 t)
    (h : stateNat s = stateNat t) : s = t := by
  obtain ⟨a, b, c, d, e, f, g, hh⟩ := s
  obtain ⟨a', b', c', d', e', f', g', hh'⟩ := t
  obtain ⟨u1, u2, u3, u4, u5, u6, u7, u8⟩ := hs
  obtain ⟨v1, v2, v3, v4, v5, v6, v7, v8⟩ := ht
  unfold stateNat at h
  simp only [M32] at h u1 u2 u3 u4 u5 u6 u7 u8 v1 v2 v3 v4 v5 v6 v7 v8
  simp only [SHA8.mk.injEq]
  omega

/-- SHA-256 maps infinitely many byte sequences into a 2^256-element digest
space, so it has a collision. -/
theorem sha256_collision :
    ∃ x y : List Nat, x ≠ y ∧ generate_sha256_hash x = generate_sha256_hash y := by
  have hlt : ∀ n : Nat, stateNat (sha256State (List.replicate n 0)) < M32 ^ 8 :=
    fun n => stateNat_lt _ (sha256State_bounded _)
  obtain ⟨m, n, hmn, hg⟩ := Finite.exists_ne_map_eq_of_infinite
    (fun n : Nat => (⟨stateNat (sha256State (List.replicate n 0)), hlt n⟩ : Fin (M32 ^ 8)))
  refine ⟨List.replicate m 0, List.replicate n 0, ?_, ?_⟩
  · intro h
    exact hmn (by simpa using congrArg List.length h)
  · have hval : stateNat (sha256State (List.replicate m 0)) =
        stateNat (sha256State (List.replicate n 0)) := congrArg Fin.val hg
    have hstate : sha256State (List.replicate m 0) = sha256State (List.replicate n 0) :=
      stateNat_inj _ _ (sha256State_bounded _) (sha256State_bounded _) hval
    unfold generate_sha256_hash
    rw [hstate]

/-- Untampered evaluation of non-empty bytes yields (1, 1). -/
theorem eval_untampered (binary : List Nat) (idx val : Nat) (hb : binary ≠ []) :
    evaluate_binary_vs_sha256 binary false idx val = (1, 1) := by
  unfold evaluate_binary_vs_sha256
  rw [if_neg hb]
  simp

/-- Evaluation of an empty (failed) read yields the (0, 0) sentinel. -/
theorem eval_empty (tampered : Bool) (idx val : Nat) :
    evaluate_binary_vs_sha256 [] tampered idx val = (0, 0) := rfl

/-- A tampered trial always has ground truth 0. -/
theorem eval_tampered_fst (binary : List Nat) (idx val : Nat) :
    (evaluate_binary_vs_sha256 binary true idx val).1 = 0 := by
  unfold evaluate_binary_vs_sha256
  by_cases hb : binary = []
  · simp [hb]
  · rw [if_neg hb]
    by_cases ht : tamper_image binary idx val = [] <;> simp [ht]

/-- No trial produces the pair (1, 0). -/
theorem eval_ne_one_zero (binary : List Nat) (tampered : Bool) (idx val : Nat) :
    evaluate_binary_vs_sha256 binary tampered idx val ≠ (1, 0) := by
  cases tampered
  · by_cases hb : binary = []
    · rw [hb, eval_empty]
      decide
    · rw [eval_untampered binary idx val hb]
      decide
  · intro h
    have := eval_tampered_fst binary idx val
    rw [h] at this
    simp at this

theorem evalStep_eq (acc : List Nat × List Nat × List LogMsg) (en : ImageEntry) :
    evalStep acc en =
      (acc.1 ++ (entryLabels en).1, acc.2.1 ++ (entryLabels en).2.1,
       acc.2.2 ++ (entryLabels en).2.2) := by
  obtain ⟨t, p, l⟩ := acc
  unfold evalStep entryLabels evalStep
  by_cases hm : hasImageExt en.name <;> simp [hm]

theorem foldl_evalStep_acc :
    ∀ (entries : List ImageEntry) (acc : List Nat × List Nat × List LogMsg),
      entries.foldl evalStep acc =
        (acc.1 ++ (collectLabels entries).1, acc.2.1 ++ (collectLabels entries).2.1,
         acc.2.2 ++ (collectLabels entries).2.2)
  | [], acc => by simp [collectLabels]
  | en :: es, acc => by
      show List.foldl evalStep (evalStep acc en) es = _
      rw [foldl_evalStep_acc es (evalStep acc en), evalStep_eq acc en]
      have hrhs : collectLabels (en :: es) =
          ((entryLabels en).1 ++ (collectLabels es).1,
           (entryLabels en).2.1 ++ (collectLabels es).2.1,
           (entryLabels en).2.2 ++ (collectLabels es).2.2) := by
        show List.foldl evalStep (evalStep ([], [], []) en) es = _
        rw [foldl_evalStep_acc es (evalStep ([], [], []) en), evalStep_eq ([], [], []) en]
        simp
      rw [hrhs]
      simp [List.append_assoc]

theorem collectLabels_cons (en : ImageEntry) (es : List ImageEntry) :
    collectLabels (en :: es) =
      ((entryLabels en).1 ++ (collectLabels es).1,
       (entryLabels en).2.1 ++ (collectLabels es).2.1,
       (entryLabels en).2.2 ++ (collectLabels es).2.2) := by
  show List.foldl evalStep (evalStep ([], [], []) en) es = _
  rw [foldl_evalStep_acc es (evalStep ([], [], []) en), evalStep_eq ([], [], []) en]
  simp

theorem entryLabels_lengths (en : ImageEntry) :
    (entryLabels en).1.length = (if hasImageExt en.name then 2 else 0) ∧
    (entryLabels en).2.1.length = (if hasImageExt en.name then 2 else 0) ∧
    (entryLabels en).1.zip (entryLabels en).2.1 = entryPairs en := by
  unfold entryLabels evalStep entryPairs
  by_cases hm : hasImageExt en.name <;> simp [hm, List.zip]

theorem collectLabels_lengths (entries : List ImageEntry) :
    (collectLabels entries).1.length = 2 * entries.countP (fun e => hasImageExt e.name) ∧
    (collectLabels entries).2.1.length = 2 * entries.countP (fun e => hasImageExt e.name) := by
  induction entries with
  | nil => simp [collectLabels]
  | cons en es ih =>
      rw [collectLabels_cons]
      obtain ⟨h1, h2, _⟩ := entryLabels_lengths en
      simp only [List.length_append, h1, h2, ih.1, ih.2, List.countP_cons]
      by_cases hm : hasImageExt en.name <;> simp [hm] <;> ring

theorem collectLabels_zip (entries : List ImageEntry) :
    (collectLabels entries).1.zip (collectLabels entries).2.1 =
      (entries.map entryPairs).flatten := by
  induction entries with
  | nil => simp [collectLabels]
  | cons en es ih =>
      rw [collectLabels_cons]
      obtain ⟨h1, h2, h3⟩ := entryLabels_lengths en
      rw [List.zip_append (h1.trans h2.symm), ih, h3]
      simp

theorem entryPairs_ne_one_zero (en : ImageEntry) :
    ∀ x ∈ entryPairs en, x ≠ (1, 0) := by
  intro x hx
  unfold entryPairs at hx
  by_cases hm : hasImageExt en.name
  · simp only [hm, if_true, List.mem_cons, List.not_mem_nil, or_false] at hx
    rcases hx with rfl | rfl
    · exact eval_ne_one_zero _ _ _ _
    · exact eval_ne_one_zero _ _ _ _
  · simp [hm] at hx

theorem collect_zip_ne_one_zero (entries : List ImageEntry) :
    ∀ x ∈ (collectLabels entries).1.zip (collectLabels entries).2.1, x ≠ (1, 0) := by
  intro x hx
  rw [collectLabels_zip] at hx
  obtain ⟨l, hl, hxl⟩ := List.mem_flatten.mp hx
  obtain ⟨en, _, rfl⟩ := List.mem_map.mp hl
  exact entryPairs_ne_one_zero en x hxl

/-- Tampered evaluation of non-empty bytes never takes the empty-tamper
bailout: it returns ground truth 0 and the digest comparison's verdict. -/
theorem eval_tampered_eq (b : List Nat) (idx val : Nat) (hb : b ≠ []) :
    evaluate_binary_vs_sha256 b true idx val =
      (0, if generate_sha256_hash (tamper_image b idx val) = generate_sha256_hash b
          then 1 else 0) := by
  unfold evaluate_binary_vs_sha256
  rw [if_neg hb]
  simp [tamper_image_ne_nil b idx val hb]

theorem countPairs_one_zero_eq_zero (ts ps : List Nat)
    (h : ∀ x ∈ ts.zip ps, x ≠ (1, 0)) : countPairs ts ps 1 0 = 0 := by
  unfold countPairs
  rw [List.length_eq_zero, List.filter_eq_nil]
  intro x hx
  simp only [Bool.and_eq_true, beq_iff_eq]
  intro hx10
  exact h x hx (Prod.ext hx10.1 hx10.2)

theorem countPairs_one_one_pos (ts ps : List Nat) (h : (1, 1) ∈ ts.zip ps) :
    1 ≤ countPairs ts ps 1 1 := by
  unfold countPairs
  have hmem : (1, 1) ∈ (ts.zip ps).filter (fun x => x.1 == 1 && x.2 == 1) :=
    List.mem_filter.mpr ⟨h, by decide⟩
  exact List.length_pos.mpr (List.ne_nil_of_mem hmem)

theorem recall_score_eq_one (ts ps : List Nat)
    (hfn : countPairs ts ps 1 0 = 0) (htp : 1 ≤ countPairs ts ps 1 1) :
    recall_score ts ps = 1 := by
  unfold recall_score
  rw [hfn, if_neg (by omega)]
  have hne : (countPairs ts ps 1 1 : ℚ) ≠ 0 := by
    exact_mod_cast (by omega : countPairs ts ps 1 1 ≠ 0)
  simp [div_self hne]

theorem noValidImages_not_mem_collect (entries : List ImageEntry) :
    LogMsg.noValidImages ∉ (collectLabels entries).2.2 := by
  induction entries with
  | nil => simp [collectLabels]
  | cons en es ih =>
      rw [collectLabels_cons]
      simp only [List.mem_append, not_or]
      refine ⟨?_, ih⟩
      unfold entryLabels evalStep
      by_cases hm : hasImageExt en.name <;> simp [hm]

/-! ### Claim theorems -/

/-- C2 (confirmed): for every byte sequence whose read yields non-empty
bytes, the evaluator with `tampered = false` returns the label pair (1, 1):
the ground truth is 1 because the tamper flag is false, and the predicted
label is 1 because the recomputed digest of the unmodified bytes equals the
original digest. -/
theorem claim_C2_untampered_pair (binary : List Nat) (idx val : Nat) (hb : binary ≠ []) :
    evaluate_binary_vs_sha256 binary false idx val = (1, 1) := by
  unfold evaluate_binary_vs_sha256
  rw [if_neg hb]
  simp

theorem claim_C2_untampered_pair_witness :
    ([65] : List Nat) ≠ [] ∧ evaluate_binary_vs_sha256 [65] false 0 0 = (1, 1) :=
  ⟨by decide, claim_C2_untampered_pair [65] 0 0 (by decide)⟩

/-- C3 (confirmed): the hasher is deterministic (equal calls yield the
identical digest), and for every byte sequence, including the empty one,
its output is a 64-character string all of whose characters are lowercase
hexadecimal digits; the digest is computed by the SHA-256 algorithm
(`sha256State`, validated against the FIPS 180-4 test vectors below). -/
theorem claim_C3_hasher_deterministic_hex64 (data : List Nat) :
    generate_sha256_hash data = generate_sha256_hash data ∧
    (generate_sha256_hash data).length = 64 ∧
    ∀ c ∈ (generate_sha256_hash data).data, c ∈ hexChars := by
  refine ⟨rfl, ?_, ?_⟩
  · show (stateToHex (sha256State data)).length = 64
    exact stateToHex_length _
  · intro c hc
    exact stateToHex_mem _ c hc

theorem claim_C3_hasher_deterministic_hex64_witness :
    (generate_sha256_hash []).length = 64 ∧ 'e' ∈ hexChars :=
  ⟨(claim_C3_hasher_deterministic_hex64 []).2.1,
   (claim_C3_hasher_deterministic_hex64 []).2.2 'e' (by decide)⟩

/-- C4 (confirmed): for every non-empty byte sequence and every outcome of
the two random draws (an index within range and a byte value below 256, as
`random.randint` guarantees), the tamperer preserves the length, stores the
drawn value at the drawn index, and leaves every other position unchanged;
on the empty sequence it returns the empty sequence immediately, uniformly
in the (never drawn) index and value. -/
theorem claim_C4_tamperer_single_byte (b : List Nat) (idx val : Nat) :
    (b ≠ [] → idx < b.length → val < 256 →
      (tamper_image b idx val).length = b.length ∧
      (tamper_image b idx val).getD idx 0 = val ∧
      ∀ j, j ≠ idx → (tamper_image b idx val).getD j 0 = b.getD j 0) ∧
    tamper_image [] idx val = [] := by
  constructor
  · intro hb hidx _
    unfold tamper_image
    rw [if_neg hb]
    exact ⟨by simp, getD_set_self b idx val hidx, fun j hj => getD_set_ne b idx j val hj⟩
  · rfl

theorem claim_C4_tamperer_single_byte_witness :
    (([1, 2, 3] : List Nat) ≠ [] ∧ 1 < ([1, 2, 3] : List Nat).length ∧ 77 < 256) ∧
    (tamper_image [1, 2, 3] 1 77).length = 3 ∧
    (tamper_image [1, 2, 3] 1 77).getD 1 0 = 77 ∧
    (tamper_image [1, 2, 3] 1 77).getD 0 0 = 1 := by
  have h := (claim_C4_tamperer_single_byte [1, 2, 3] 1 77).1 (by decide) (by decide) (by decide)
  exact ⟨⟨by decide, by decide, by decide⟩, h.1, h.2.1, h.2.2 0 (by decide)⟩

/-- C5 (confirmed): for every entry list, when the directory does not exist
the batch runner emits exactly the directory-does-not-exist diagnostic and
returns the zero metrics, with both label lists untouched (empty) — it
never reaches the iteration. -/
theorem claim_C5_missing_directory (entries : List ImageEntry) :
    process_images_in_directory false entries =
      ⟨(0, 0, 0), [], [], [LogMsg.dirNotExist]⟩ := rfl

/-- C8 (confirmed): the evaluator's tampered-empty bailout is unreachable:
whenever the read produced non-empty bytes (the only case in which the
tamperer is invoked), the tamperer's output is non-empty, and the tampered
trial returns the ordinary pair (0, predicted) computed from the digest
comparison rather than the bailout sentinel. -/
theorem claim_C8_empty_tamper_unreachable (b : List Nat) (idx val : Nat) (hb : b ≠ []) :
    tamper_image b idx val ≠ [] ∧
    evaluate_binary_vs_sha256 b true idx val =
      (0, if generate_sha256_hash (tamper_image b idx val) = generate_sha256_hash b
          then 1 else 0) :=
  ⟨tamper_image_ne_nil b idx val hb, eval_tampered_eq b idx val hb⟩

theorem claim_C8_empty_tamper_unreachable_witness :
    ([65] : List Nat) ≠ [] ∧
    (tamper_image [65] 0 66 ≠ [] ∧
     evaluate_binary_vs_sha256 [65] true 0 66 =
       (0, if generate_sha256_hash (tamper_image [65] 0 66) = generate_sha256_hash [65]
           then 1 else 0)) :=
  ⟨by decide, claim_C8_empty_tamper_unreachable [65] 0 66 (by decide)⟩

/-- C1 counterexample: a directory entry whose read failed (empty bytes)
still gets two label pairs appended — both sub-trials return the (0, 0)
sentinel and the loop appends them unconditionally — refuting "a failed
read contributes zero pairs". -/
theorem claim_C1_counterexample :
    hasImageExt ['a', '.', 'p', 'n', 'g'] = true ∧
    (collectLabels [⟨['a', '.', 'p', 'n', 'g'], [], 0, 0⟩]).1 = [0, 0] ∧
    (collectLabels [⟨['a', '.', 'p', 'n', 'g'], [], 0, 0⟩]).2.1 = [0, 0] := by decide

/-- C1 (corrected): every matching file contributes exactly two label
pairs, read failure or not. A successful read contributes the untampered
pair (1, 1) and the tampered pair (0, digest verdict); a failed (empty)
read contributes two (0, 0) sentinel pairs — not zero pairs. -/
theorem claim_C1_amended_two_pairs_always (en : ImageEntry)
    (hm : hasImageExt en.name = true) :
    (collectLabels [en]).1.length = 2 ∧
    (collectLabels [en]).2.1.length = 2 ∧
    (en.bytes = [] →
      (collectLabels [en]).1 = [0, 0] ∧ (collectLabels [en]).2.1 = [0, 0]) ∧
    (en.bytes ≠ [] →
      (collectLabels [en]).1 = [1, 0] ∧
      (collectLabels [en]).2.1 =
        [1, if generate_sha256_hash (tamper_image en.bytes en.tIdx en.tVal) =
              generate_sha256_hash en.bytes then 1 else 0]) := by
  have hcol : collectLabels [en] = evalStep ([], [], []) en := by
    simp [collectLabels]
  rw [hcol]
  unfold evalStep
  rw [if_pos hm]
  refine ⟨by simp, by simp, ?_, ?_⟩
  · intro hb
    rw [hb]
    simp [eval_empty]
  · intro hb
    rw [eval_untampered en.bytes en.tIdx en.tVal hb, eval_tampered_eq en.bytes en.tIdx en.tVal hb]
    simp

theorem claim_C1_amended_two_pairs_always_witness :
    hasImageExt ['b', '.', 'j', 'p', 'g'] = true ∧
    (collectLabels [⟨['b', '.', 'j', 'p', 'g'], [66], 0, 7⟩]).1.length = 2 ∧
    (collectLabels [⟨['b', '.', 'j', 'p', 'g'], [66], 0, 7⟩]).2.1.length = 2 ∧
    (collectLabels [⟨['b', '.', 'j', 'p', 'g'], [66], 0, 7⟩]).1 = [1, 0] := by
  have h := claim_C1_amended_two_pairs_always ⟨['b', '.', 'j', 'p', 'g'], [66], 0, 7⟩ (by decide)
  exact ⟨by decide, h.1, h.2.1, (h.2.2.2 (by decide)).1⟩

/-- C6 counterexample: a directory whose only matching file is unreadable
still collects two (0, 0) label pairs, and the "No valid images processed"
report is not emitted — refuting "no labels are collected when every
matching file is unreadable". -/
theorem claim_C6_counterexample :
    (process_images_in_directory true [⟨['a', '.', 'p', 'n', 'g'], [], 0, 1⟩]).trueLabels
      = [0, 0] ∧
    LogMsg.noValidImages ∉
      (process_images_in_directory true [⟨['a', '.', 'p', 'n', 'g'], [], 0, 1⟩]).log := by
  decide

/-- C6 (corrected): the batch runner reports "No valid images processed"
and returns the zero metrics exactly when no labels were collected, which
happens exactly when no directory entry matches the image extensions.
Unreadable matching files do not trigger it: they still contribute (0, 0)
label pairs. -/
theorem claim_C6_amended_no_labels_iff_no_matches (entries : List ImageEntry) :
    (LogMsg.noValidImages ∈ (process_images_in_directory true entries).log ↔
      (process_images_in_directory true entries).trueLabels = []) ∧
    ((process_images_in_directory true entries).trueLabels = [] ↔
      entries.countP (fun e => hasImageExt e.name) = 0) ∧
    ((process_images_in_directory true entries).trueLabels = [] →
      (process_images_in_directory true entries).metrics = (0, 0, 0)) := by
  have hlen := collectLabels_lengths entries
  unfold process_images_in_directory
  by_cases hcond : (collectLabels entries).1 = [] ∨ (collectLabels entries).2.1 = []
  · have h1 : (collectLabels entries).1 = [] := by
      rcases hcond with h | h
      · exact h
      · have : (collectLabels entries).1.length = 0 := by
          rw [hlen.1, ← hlen.2, h]
          simp
        exact List.length_eq_zero.mp this
    simp only [if_pos hcond]
    refine ⟨?_, ?_, fun _ => rfl⟩
    · simp [h1]
    · rw [h1]
      have := hlen.1
      rw [h1] at this
      simp only [List.length_nil] at this
      constructor
      · intro _
        omega
      · intro _
        rfl
  · simp only [if_neg hcond]
    push_neg at hcond
    refine ⟨?_, ?_, ?_⟩
    · constructor
      · intro hmem
        exact absurd hmem (noValidImages_not_mem_collect entries)
      · intro h1
        exact absurd h1 hcond.1
    · constructor
      · intro h1
        exact absurd h1 hcond.1
      · intro hcount
        have := hlen.1
        rw [hcount] at this
        simp only [Nat.mul_zero] at this
        exact absurd (List.length_eq_zero.mp this) hcond.1
    · intro h1
      exact absurd h1 hcond.1

theorem claim_C6_amended_no_labels_iff_no_matches_witness :
    LogMsg.noValidImages ∈ (process_images_in_directory true ([] : List ImageEntry)).log ∧
    (process_images_in_directory true ([] : List ImageEntry)).metrics = (0, 0, 0) := by
  have h := claim_C6_amended_no_labels_iff_no_matches ([] : List ImageEntry)
  exact ⟨h.1.mpr rfl, h.2.2 rfl⟩

/-- C7 counterexample: "two digests are equal iff their source byte
sequences are bit-identical" is false as a universal statement: SHA-256
compresses an infinite domain into 2^256 digests, so some two distinct
byte sequences share a digest, contradicting the iff. -/
theorem claim_C7_counterexample :
    ¬ (∀ x y : List Nat, generate_sha256_hash x = generate_sha256_hash y ↔ x = y) := by
  intro hiff
  obtain ⟨x, y, hxy, hh⟩ := sha256_collision
  exact hxy ((hiff x y).mp hh)

/-- C7 (corrected): equal byte sequences always yield equal digests (the
hasher is a deterministic function of its input), but the converse fails
in principle: the hasher is not injective on all byte sequences, by
pigeonhole on the 2^256-element digest space. -/
theorem claim_C7_amended_det_not_injective :
    (∀ x y : List Nat, x = y → generate_sha256_hash x = generate_sha256_hash y) ∧
    ¬ Function.Injective generate_sha256_hash := by
  refine ⟨fun x y h => by rw [h], ?_⟩
  intro hinj
  obtain ⟨x, y, hxy, hh⟩ := sha256_collision
  exact hxy (hinj hh)

theorem claim_C7_amended_det_not_injective_witness :
    generate_sha256_hash [0] = generate_sha256_hash [0] :=
  claim_C7_amended_det_not_injective.1 [0] [0] rfl

/-- C9 (confirmed): after the batch loop both label lists have length
exactly twice the number of entries whose names match the image
extensions, whatever each file's read produced; and a matching file whose
read yielded empty bytes contributes exactly the two sentinel pairs
(0, 0), (0, 0). -/
theorem claim_C9_two_labels_per_match (entries : List ImageEntry) :
    (collectLabels entries).1.length = 2 * entries.countP (fun e => hasImageExt e.name) ∧
    (collectLabels entries).2.1.length = 2 * entries.countP (fun e => hasImageExt e.name) ∧
    ∀ en : ImageEntry, hasImageExt en.name = true → en.bytes = [] →
      (collectLabels [en]).1 = [0, 0] ∧ (collectLabels [en]).2.1 = [0, 0] := by
  refine ⟨(collectLabels_lengths entries).1, (collectLabels_lengths entries).2, ?_⟩
  intro en hm hb
  have hcol : collectLabels [en] = evalStep ([], [], []) en := by
    simp [collectLabels]
  rw [hcol]
  unfold evalStep
  rw [if_pos hm, hb]
  simp [eval_empty]

theorem claim_C9_two_labels_per_match_witness :
    (collectLabels [⟨['x', '.', 'j', 'p', 'e', 'g'], [1, 2], 1, 3⟩]).1.length =
      2 * List.countP (fun e => hasImageExt e.name)
        [(⟨['x', '.', 'j', 'p', 'e', 'g'], [1, 2], 1, 3⟩ : ImageEntry)] ∧
    hasImageExt ['c', '.', 'b', 'm', 'p'] = true ∧
    (collectLabels [⟨['c', '.', 'b', 'm', 'p'], [], 0, 0⟩]).1 = [0, 0] := by
  have h := claim_C9_two_labels_per_match [⟨['x', '.', 'j', 'p', 'e', 'g'], [1, 2], 1, 3⟩]
  exact ⟨h.1, by decide, (h.2.2 ⟨['c', '.', 'b', 'm', 'p'], [], 0, 0⟩ (by decide) rfl).1⟩

/-- C10 (confirmed): in every batch run no index-aligned label pair equals
(1, 0) — a ground truth of 1 arises only on a successful untampered trial,
whose prediction is always 1 — so the collected lists never contain a
false negative, and whenever at least one (1, 1) pair was collected the
recall the runner returns is exactly 1. -/
theorem claim_C10_no_false_negatives (dirExists : Bool) (entries : List ImageEntry) :
    (∀ x ∈ (process_images_in_directory dirExists entries).trueLabels.zip
        (process_images_in_directory dirExists entries).predLabels, x ≠ (1, 0)) ∧
    ((1, 1) ∈ (process_images_in_directory dirExists entries).trueLabels.zip
        (process_images_in_directory dirExists entries).predLabels →
      (process_images_in_directory dirExists entries).metrics.2.1 = 1) := by
  cases dirExists with
  | false => simp [process_images_in_directory]
  | true =>
      unfold process_images_in_directory
      by_cases hcond : (collectLabels entries).1 = [] ∨ (collectLabels entries).2.1 = []
      · simp only [if_pos hcond]
        refine ⟨fun x hx => collect_zip_ne_one_zero entries x hx, ?_⟩
        intro hmem
        exfalso
        have hboth := List.mem_zip hmem
        rcases hcond with h | h
        · rw [h] at hboth
          exact absurd hboth.1 (List.not_mem_nil _)
        · rw [h] at hboth
          exact absurd hboth.2 (List.not_mem_nil _)
      · simp only [if_neg hcond]
        refine ⟨fun x hx => collect_zip_ne_one_zero entries x hx, ?_⟩
        intro hmem
        show recall_score (collectLabels entries).1 (collectLabels entries).2.1 = 1
        exact recall_score_eq_one _ _
          (countPairs_one_zero_eq_zero _ _ (collect_zip_ne_one_zero entries))
          (countPairs_one_one_pos _ _ hmem)

set_option maxRecDepth 100000 in
theorem claim_C10_no_false_negatives_witness :
    ((1, 1) ∈ (process_images_in_directory true [⟨['a', '.', 'p', 'n', 'g'], [65], 0, 0⟩]).trueLabels.zip
        (process_images_in_directory true [⟨['a', '.', 'p', 'n', 'g'], [65], 0, 0⟩]).predLabels) ∧
    (process_images_in_directory true [⟨['a', '.', 'p', 'n', 'g'], [65], 0, 0⟩]).metrics.2.1 = 1 := by
  have h := claim_C10_no_false_negatives true [⟨['a', '.', 'p', 'n', 'g'], [65], 0, 0⟩]
  exact ⟨by decide, h.2 (by decide)⟩

end Biometrics
